import Mathlib

/-!
# Forest Admin live demo (SaaS): virtual fields of `companies`

A shallow embedding of `src/index.js`: the resolvers (`getValues`) of the
virtual fields `planId`, `nbUsers`, `planPrice` and `MRR`, the `In` operator
override of `planId`, the `Cancel subscription` action and the computation of
`dialectOptions` from the environment.

Conventions of the embedding.

* A record is an association list from field names to primitive values; reading
  an absent property gives `undefined`, as in JavaScript.
* A number is an integer-valued double, `NaN` or an infinity. `-0` is identified
  with `0` (the program never divides and never calls `Object.is`).
* An `async` function is a value of `Async`: its outcome (resolved or rejected)
  together with the DataSource calls it issued, in order.
* The DataSource is a parameter of every resolver (`Context.dataSource`). A
  table-backed DataSource, `tableDataSource`, is provided to run the resolvers
  on concrete collections.
-/

namespace ForestDemo

/-! ## JavaScript values -/

/-- JavaScript numbers restricted to the integer-valued doubles, `NaN`, `+Infinity`
and `-Infinity`. -/
inductive JSNum where
  | nan
  | inf (negative : Bool)
  | fin (z : Int)
  deriving DecidableEq, Repr

/-- Primitive JavaScript values: what a field of a record holds. -/
inductive Prim where
  | undefined
  | null
  | bool (b : Bool)
  | num (n : JSNum)
  | str (s : String)
  deriving DecidableEq, Repr

/-- A number literal of the source, such as `0`. -/
def Prim.int (z : Int) : Prim := Prim.num (JSNum.fin z)

/-- Errors a JavaScript evaluation can throw in this program. -/
inductive JSError where
  | TypeError (message : String)
  | SyntaxError (message : String)
  deriving DecidableEq, Repr

/-- A record: field name to value. -/
abbrev Record := List (String × Prim)

/-- Property read `r.k` on an object: the value of the first entry named `k`,
`undefined` when there is none. -/
def Record.get (r : Record) (k : String) : Prim :=
  match r.find? (fun kv => kv.1 == k) with
  | some kv => kv.2
  | none => Prim.undefined

/-- Strict equality `a === b` on primitive values: `NaN` is equal to nothing,
every other primitive is equal to itself only. -/
def jsStrictEq (a b : Prim) : Bool :=
  match a, b with
  | Prim.num JSNum.nan, _ => false
  | _, Prim.num JSNum.nan => false
  | x, y => decide (x = y)

/-- The double nearest to the integer `z` (ties to even), `±Infinity` on
overflow. Integers of magnitude at most `2^53` are doubles already. -/
def roundToDouble (z : Int) : JSNum :=
  let a := z.natAbs
  if a ≤ 2 ^ 53 then JSNum.fin z
  else
    let e := Nat.log2 a - 52
    let q := a / 2 ^ e
    let r := a % 2 ^ e
    let half := 2 ^ (e - 1)
    let q' := if half < r ∨ (r = half ∧ q % 2 = 1) then q + 1 else q
    let v := q' * 2 ^ e
    if 2 ^ 1024 ≤ v then JSNum.inf (decide (z < 0))
    else JSNum.fin (if z < 0 then -(v : Int) else (v : Int))

/-- The abstract operation `ToNumber`. The conversion of a string
(`StringToNumber`) is a parameter: its results need not be integers. -/
def ToNumber (StringToNumber : String → JSNum) : Prim → JSNum
  | Prim.undefined => JSNum.nan
  | Prim.null => JSNum.fin 0
  | Prim.bool true => JSNum.fin 1
  | Prim.bool false => JSNum.fin 0
  | Prim.num n => n
  | Prim.str s => StringToNumber s

/-- Multiplication of two numbers (`Number::multiply`). -/
def JSNum.mul : JSNum → JSNum → JSNum
  | JSNum.nan, _ => JSNum.nan
  | _, JSNum.nan => JSNum.nan
  | JSNum.inf s, JSNum.inf t => JSNum.inf (xor s t)
  | JSNum.inf s, JSNum.fin b =>
    if b = 0 then JSNum.nan else JSNum.inf (xor s (decide (b < 0)))
  | JSNum.fin a, JSNum.inf t =>
    if a = 0 then JSNum.nan else JSNum.inf (xor (decide (a < 0)) t)
  | JSNum.fin a, JSNum.fin b => roundToDouble (a * b)

/-- The expression `a * b`. -/
def jsMul (StringToNumber : String → JSNum) (a b : Prim) : Prim :=
  Prim.num (JSNum.mul (ToNumber StringToNumber a) (ToNumber StringToNumber b))

/-! ## Condition trees, DataSource calls and `async` functions -/

/-- A leaf `{ field, operator, value }` whose value is an array. -/
structure ConditionTreeLeaf where
  field : String
  operator : String
  value : List Prim
  deriving DecidableEq, Repr

/-- A filter `{ conditionTree }`. -/
structure Filter where
  conditionTree : ConditionTreeLeaf
  deriving DecidableEq, Repr

/-- A group of an aggregation, `{ field }`. -/
structure AggregationGroup where
  field : String
  deriving DecidableEq, Repr

/-- An aggregation `{ operation, field, groups }`. -/
structure Aggregation where
  operation : String
  field : String
  groups : List AggregationGroup
  deriving DecidableEq, Repr

/-- A row of the result of `aggregate`: `{ value, group }`. -/
structure AggregateResult where
  value : Prim
  group : Record
  deriving DecidableEq, Repr

/-- The handle `getCollection(name)` returns. -/
structure Collection where
  list : Filter → List String → List Record
  aggregate : Filter → Aggregation → List AggregateResult

/-- The DataSource the resolvers query. -/
structure DataSource where
  getCollection : String → Collection

/-- The context handed to a resolver or an operator override. -/
structure Context where
  dataSource : DataSource

/-- A call issued to the DataSource. -/
inductive Call where
  | list (collection : String) (filter : Filter) (projection : List String)
  | aggregate (collection : String) (filter : Filter) (aggregation : Aggregation)
  deriving DecidableEq, Repr

/-- The run of an `async` function: how its promise settles and the DataSource
calls issued meanwhile, oldest first. -/
structure Async (α : Type) where
  outcome : Except JSError α
  calls : List Call

/-- An already-resolved promise. -/
def Async.resolve {α : Type} (v : α) : Async α := ⟨Except.ok v, []⟩

/-- Sequencing (`await`): a rejection stops the function, the calls are kept. -/
def Async.bind {α β : Type} (x : Async α) (f : α → Async β) : Async β :=
  match x.outcome with
  | Except.ok v => ⟨(f v).outcome, x.calls ++ (f v).calls⟩
  | Except.error e => ⟨Except.error e, x.calls⟩

instance : Monad Async where
  pure := Async.resolve
  bind := Async.bind

/-- A synchronous computation that may throw, inside an `async` function. -/
def Async.ofExcept {α : Type} (x : Except JSError α) : Async α := ⟨x, []⟩

/-- The call `context.dataSource.getCollection(name).list(filter, projection)`. -/
def Context.list (context : Context) (name : String) (filter : Filter)
    (projection : List String) : Async (List Record) :=
  ⟨Except.ok ((context.dataSource.getCollection name).list filter projection),
    [Call.list name filter projection]⟩

/-- The call `context.dataSource.getCollection(name).aggregate(filter, aggregation)`. -/
def Context.aggregate (context : Context) (name : String) (filter : Filter)
    (aggregation : Aggregation) : Async (List AggregateResult) :=
  ⟨Except.ok ((context.dataSource.getCollection name).aggregate filter aggregation),
    [Call.aggregate name filter aggregation]⟩

/-- The method `Array.prototype.map` with a callback that may throw: the first
exception, in array order, aborts the whole map. -/
def arrayMap {α β : Type} (f : α → Except JSError β) : List α → Except JSError (List β)
  | [] => Except.ok []
  | x :: xs =>
    match f x with
    | Except.error e => Except.error e
    | Except.ok y =>
      match arrayMap f xs with
      | Except.error e => Except.error e
      | Except.ok ys => Except.ok (y :: ys)

/-- Property read `row.k` where `row` is the result of `Array.prototype.find`:
reading a property of `undefined` throws a `TypeError`. -/
def readProperty {α : Type} (row : Option α) (k : String) (read : α → Prim) :
    Except JSError Prim :=
  match row with
  | some r => Except.ok (read r)
  | none =>
    Except.error
      (JSError.TypeError ("Cannot read properties of undefined (reading " ++ k ++ ")"))

/-- Optional chaining `row?.k`: `undefined` when `row` is `undefined`. -/
def optionalChain {α : Type} (row : Option α) (read : α → Prim) : Prim :=
  match row with
  | some r => read r
  | none => Prim.undefined

/-- Nullish coalescing `a ?? b`: `b` when `a` is `null` or `undefined`, else `a`. -/
def nullishCoalescing (a b : Prim) : Prim :=
  match a with
  | Prim.undefined => b
  | Prim.null => b
  | v => v

/-! ## The virtual fields of `companies` -/

namespace planId

/-- The constant `recordIds` of the resolver. -/
def recordIds (records : List Record) : List Prim := records.map (fun r => r.get "id")

/-- The constant `filter` of the resolver. -/
def filter (records : List Record) : Filter :=
  { conditionTree := { field := "company_id", operator := "In", value := recordIds records } }

/-- The resolver of `companies.planId`. -/
def getValues (records : List Record) (context : Context) : Async (List Prim) := do
  let rows ← context.list "subscriptions" (filter records) ["company_id", "plan_id"]
  Async.ofExcept (arrayMap (fun record =>
    let row := rows.find? (fun r => jsStrictEq (r.get "company_id") (record.get "id"))
    readProperty row "plan_id" (fun r => r.get "plan_id")) records)

/-- The override registered by `replaceFieldOperator` for `planId` and `In`. -/
def replaceFieldOperator_In (planId : List Prim) (context : Context) :
    Async ConditionTreeLeaf := do
  let records ← context.list "plans"
    { conditionTree := { field := "id", operator := "In", value := planId } } ["id"]
  pure { field := "id", operator := "In", value := records.map (fun r => r.get "id") }

end planId

namespace nbUsers

/-- The constant `recordIds` of the resolver. -/
def recordIds (records : List Record) : List Prim := records.map (fun r => r.get "id")

/-- The constant `filter` of the resolver. -/
def filter (records : List Record) : Filter :=
  { conditionTree := { field := "company_id", operator := "In", value := recordIds records } }

/-- The constant `aggregation` of the resolver. -/
def aggregation : Aggregation :=
  { operation := "Count", field := "id", groups := [{ field := "company_id" }] }

/-- The resolver of `companies.nbUsers`. -/
def getValues (records : List Record) (context : Context) : Async (List Prim) := do
  let rows ← context.aggregate "users" (filter records) aggregation
  pure (records.map (fun record =>
    let row := rows.find? (fun r => jsStrictEq (r.group.get "company_id") (record.get "id"))
    nullishCoalescing (optionalChain row (fun r => r.value)) (Prim.int 0)))

end nbUsers

namespace planPrice

/-- The constant `recordIds` of the resolver. -/
def recordIds (records : List Record) : List Prim := records.map (fun r => r.get "planId")

/-- The constant `filter` of the resolver. -/
def filter (records : List Record) : Filter :=
  { conditionTree := { field := "id", operator := "In", value := recordIds records } }

/-- The resolver of `companies.planPrice`. -/
def getValues (records : List Record) (context : Context) : Async (List Prim) := do
  let rows ← context.list "plans" (filter records) ["id", "price"]
  Async.ofExcept (arrayMap (fun record =>
    let row := rows.find? (fun r => jsStrictEq (r.get "id") (record.get "planId"))
    readProperty row "price" (fun r => r.get "price")) records)

end planPrice

namespace MRR

/-- The resolver of `companies.MRR`, a synchronous projection. -/
def getValues (StringToNumber : String → JSNum) (records : List Record) : List Prim :=
  records.map (fun r => jsMul StringToNumber (r.get "planPrice") (r.get "nbUsers"))

end MRR

/-- The virtual fields the source adds to `companies` with `addField`. -/
def companiesVirtualFields : List String := ["planId", "nbUsers", "planPrice", "MRR"]

/-! ## A table-backed DataSource -/

/-- Modelled from the spec: the DataSource facade is an external collaborator, not
part of the source; a leaf is interpreted on a record the way `list` "fetches rows
matching a condition". Only the operator `In`, the one the source issues, is
interpreted: the field's value is one of the listed values. -/
def ConditionTreeLeaf.holds (leaf : ConditionTreeLeaf) (r : Record) : Bool :=
  leaf.operator == "In" && leaf.value.any (fun v => jsStrictEq (r.get leaf.field) v)

/-- Modelled from the spec: `list` "projects only requested fields". -/
def Record.project (projection : List String) (r : Record) : Record :=
  r.filter (fun kv => projection.contains kv.1)

/-- The distinct elements of a list, in order of first occurrence. -/
def distinct {α : Type} [DecidableEq α] : List α → List α
  | [] => []
  | k :: ks => k :: (distinct ks).filter (fun x => decide (x ≠ k))

/-- Modelled from the spec: `aggregate` returns a "grouped statistic", one row
`{ group, value }` per distinct group among the rows matching the filter. Only the
operation `Count`, the one the source issues, is interpreted: the number of rows of
the group whose counted field is neither `null` nor `undefined`. -/
def aggregateRows (aggregation : Aggregation) (rows : List Record) : List AggregateResult :=
  let key : Record → Record := fun r => aggregation.groups.map (fun g => (g.field, r.get g.field))
  if aggregation.operation == "Count" then
    (distinct (rows.map key)).map (fun k =>
      { value := Prim.int ((rows.filter (fun r =>
          decide (key r = k) && decide (r.get aggregation.field ≠ Prim.null)
            && decide (r.get aggregation.field ≠ Prim.undefined))).length : Nat),
        group := k })
  else []

/-- Modelled from the spec: a DataSource whose collections are the given tables;
rows come back in table order. -/
def tableDataSource (tables : String → List Record) : DataSource where
  getCollection name :=
    { list := fun filter projection =>
        ((tables name).filter filter.conditionTree.holds).map (Record.project projection)
      aggregate := fun filter aggregation =>
        aggregateRows aggregation ((tables name).filter filter.conditionTree.holds) }

/-! ## The action `Cancel subscription` -/

/-- Modelled from the spec: the result of an action, `Success(message)` or
`Error(message)`. The source only builds successes. -/
inductive ActionResult where
  | Success (message : String)
  | Error (message : String)
  deriving DecidableEq, Repr

/-- The builder handed to `execute`. -/
structure ResultBuilder where
  success : String → ActionResult

/-- Modelled from the spec: the result builder belongs to the agent library, not to
the source; `success(message)` builds the result `Success(message)`. -/
def resultBuilder : ResultBuilder := { success := ActionResult.Success }

/-- The context of an action: the values submitted through its form, by label. -/
structure ActionContext where
  formValues : Record

/-- A field of the form of an action. -/
structure FormField where
  label : String
  description : String
  type : String
  isRequired : Bool
  enumValues : List String
  defaultValue : String
  deriving DecidableEq, Repr

namespace CancelSubscription

/-- The form of `Cancel subscription`. -/
def form : List FormField :=
  [{ label := "Are you sure?"
     description := "Think twice before cancelling this subscription."
     type := "Enum"
     isRequired := true
     enumValues := ["⛔️ No", "✅ Yes"]
     defaultValue := "⛔️ No" }]

/-- The callback `execute` of `Cancel subscription`; nothing is awaited. -/
def execute (_context : ActionContext) (resultBuilder : ResultBuilder) : Async ActionResult :=
  pure (resultBuilder.success "Subscription cancelled!")

end CancelSubscription

/-! ## `JSON.parse`, `toLowerCase` and `dialectOptions` -/

/-- The mathematical value of a JSON number literal,
`(-1)^negative * digits * 10^exponent`; the number it denotes is the double nearest
to that value. -/
structure JSONNumber where
  negative : Bool
  digits : Nat
  exponent : Int
  deriving DecidableEq, Repr

/-- The double denoted by the literal is `0` or `-0`: the value is zero or at most
`2^-1075`, half the least positive double. -/
def JSONNumber.isZero (n : JSONNumber) : Bool :=
  n.digits == 0 ||
    (decide (n.exponent < 0) && decide (n.digits * 2 ^ 1075 ≤ 10 ^ n.exponent.natAbs))

/-- The values `JSON.parse` produces, and `undefined`. A string is the list of its
UTF-16 code units. -/
inductive JSValue where
  | undefined
  | null
  | bool (b : Bool)
  | number (n : JSONNumber)
  | string (units : List Nat)
  | array (elements : List JSValue)
  | object (members : List (List Nat × JSValue))

/-- The abstract operation `ToBoolean`. -/
def ToBoolean : JSValue → Bool
  | JSValue.undefined => false
  | JSValue.null => false
  | JSValue.bool b => b
  | JSValue.number n => !n.isZero
  | JSValue.string units => !units.isEmpty
  | JSValue.array _ => true
  | JSValue.object _ => true

/-- JSON whitespace: space, tab, line feed, carriage return. -/
def isJSONWhitespace (c : Char) : Bool :=
  c == ' ' || c == '\t' || c == '\n' || c == '\r'

/-- Drops leading JSON whitespace. -/
def skipWhitespace : List Char → List Char
  | [] => []
  | c :: cs => if isJSONWhitespace c then skipWhitespace cs else c :: cs

/-- The UTF-16 code units of a character. -/
def codeUnits (c : Char) : List Nat :=
  if c.toNat < 0x10000 then [c.toNat]
  else [0xD800 + (c.toNat - 0x10000) / 0x400, 0xDC00 + (c.toNat - 0x10000) % 0x400]

/-- The value of a hexadecimal digit. -/
def hexDigit (c : Char) : Option Nat :=
  if '0' ≤ c ∧ c ≤ '9' then some (c.toNat - '0'.toNat)
  else if 'a' ≤ c ∧ c ≤ 'f' then some (c.toNat - 'a'.toNat + 10)
  else if 'A' ≤ c ∧ c ≤ 'F' then some (c.toNat - 'A'.toNat + 10)
  else none

/-- The code unit of a single-character escape `\c`. -/
def escapeUnit (c : Char) : Option Nat :=
  if c = '"' then some 0x22
  else if c = '\\' then some 0x5C
  else if c = '/' then some 0x2F
  else if c = 'b' then some 0x08
  else if c = 'f' then some 0x0C
  else if c = 'n' then some 0x0A
  else if c = 'r' then some 0x0D
  else if c = 't' then some 0x09
  else none

/-- The rest of a string literal, after its opening quote: the code units up to the
closing quote and what follows it. -/
def parseStringTail : List Char → Option (List Nat × List Char)
  | [] => none
  | '"' :: rest => some ([], rest)
  | '\\' :: 'u' :: a :: b :: c :: d :: rest =>
    match hexDigit a, hexDigit b, hexDigit c, hexDigit d, parseStringTail rest with
    | some x, some y, some z, some w, some (units, rest') =>
      some ((x * 4096 + y * 256 + z * 16 + w) :: units, rest')
    | _, _, _, _, _ => none
  | '\\' :: e :: rest =>
    match escapeUnit e, parseStringTail rest with
    | some u, some (units, rest') => some (u :: units, rest')
    | _, _ => none
  | c :: rest =>
    if c.toNat < 0x20 ∨ c = '\\' then none
    else
      match parseStringTail rest with
      | some (units, rest') => some (codeUnits c ++ units, rest')
      | none => none

/-- The longest prefix of decimal digits, and what follows it. -/
def takeDigits : List Char → List Char × List Char
  | [] => ([], [])
  | c :: cs =>
    if c.isDigit then ((takeDigits cs).1.cons c, (takeDigits cs).2) else ([], c :: cs)

/-- The number written by a list of decimal digits. -/
def digitsValue (ds : List Char) : Nat :=
  ds.foldl (fun acc d => 10 * acc + (d.toNat - '0'.toNat)) 0

/-- The optional fraction of a number literal: `.` and at least one digit. -/
def parseFraction : List Char → Option (List Char × List Char)
  | '.' :: cs =>
    match takeDigits cs with
    | ([], _) => none
    | (ds, rest) => some (ds, rest)
  | cs => some ([], cs)

/-- The optional exponent of a number literal: `e` or `E`, an optional sign and at
least one digit. -/
def parseExponent : List Char → Option (Int × List Char)
  | [] => some (0, [])
  | c :: cs =>
    if c = 'e' ∨ c = 'E' then
      match cs with
      | '-' :: cs' =>
        match takeDigits cs' with
        | ([], _) => none
        | (ds, rest) => some (-(digitsValue ds : Int), rest)
      | '+' :: cs' =>
        match takeDigits cs' with
        | ([], _) => none
        | (ds, rest) => some ((digitsValue ds : Int), rest)
      | _ =>
        match takeDigits cs with
        | ([], _) => none
        | (ds, rest) => some ((digitsValue ds : Int), rest)
    else some (0, c :: cs)

/-- A number literal without its sign: an integer part (`0`, or digits not starting
with `0`), an optional fraction and an optional exponent. -/
def parseUnsignedNumber (negative : Bool) (cs : List Char) : Option (JSONNumber × List Char) :=
  match takeDigits cs with
  | ([], _) => none
  | (d :: ds, rest) =>
    let intDigits : List Char := if d = '0' then [d] else d :: ds
    let rest1 : List Char := if d = '0' then ds ++ rest else rest
    match parseFraction rest1 with
    | none => none
    | some (fracDigits, rest2) =>
      match parseExponent rest2 with
      | none => none
      | some (e, rest3) =>
        some ({ negative := negative
                digits := digitsValue (intDigits ++ fracDigits)
                exponent := e - (fracDigits.length : Int) }, rest3)

/-- A number literal. -/
def parseNumber : List Char → Option (JSONNumber × List Char)
  | '-' :: cs => parseUnsignedNumber true cs
  | cs => parseUnsignedNumber false cs

/-- The rest of a literal name (`true`, `false`, `null`) after its first letter. -/
def expectChars : List Char → List Char → Option (List Char)
  | [], cs => some cs
  | _ :: _, [] => none
  | e :: es, c :: cs => if e = c then expectChars es cs else none

mutual

/-- A JSON value at the head of the input, and what follows it. -/
def parseValue : Nat → List Char → Option (JSValue × List Char)
  | 0, _ => none
  | _, [] => none
  | fuel + 1, c :: cs =>
    if c = '{' then
      match skipWhitespace cs with
      | '}' :: rest => some (JSValue.object [], rest)
      | cs' =>
        match parseMembers fuel cs' with
        | some (members, rest) => some (JSValue.object members, rest)
        | none => none
    else if c = '[' then
      match skipWhitespace cs with
      | ']' :: rest => some (JSValue.array [], rest)
      | cs' =>
        match parseElements fuel cs' with
        | some (elements, rest) => some (JSValue.array elements, rest)
        | none => none
    else if c = '"' then
      match parseStringTail cs with
      | some (units, rest) => some (JSValue.string units, rest)
      | none => none
    else if c = 't' then
      match expectChars ['r', 'u', 'e'] cs with
      | some rest => some (JSValue.bool true, rest)
      | none => none
    else if c = 'f' then
      match expectChars ['a', 'l', 's', 'e'] cs with
      | some rest => some (JSValue.bool false, rest)
      | none => none
    else if c = 'n' then
      match expectChars ['u', 'l', 'l'] cs with
      | some rest => some (JSValue.null, rest)
      | none => none
    else
      match parseNumber (c :: cs) with
      | some (n, rest) => some (JSValue.number n, rest)
      | none => none

/-- The elements of a non-empty array, up to and including its closing bracket. -/
def parseElements : Nat → List Char → Option (List JSValue × List Char)
  | 0, _ => none
  | fuel + 1, cs =>
    match parseValue fuel cs with
    | none => none
    | some (v, rest) =>
      match skipWhitespace rest with
      | ']' :: rest' => some ([v], rest')
      | ',' :: rest' =>
        match parseElements fuel (skipWhitespace rest') with
        | some (vs, rest'') => some (v :: vs, rest'')
        | none => none
      | _ => none

/-- The members of a non-empty object, up to and including its closing brace. -/
def parseMembers : Nat → List Char → Option (List (List Nat × JSValue) × List Char)
  | 0, _ => none
  | fuel + 1, cs =>
    match cs with
    | '"' :: cs' =>
      match parseStringTail cs' with
      | none => none
      | some (key, rest) =>
        match skipWhitespace rest with
        | ':' :: rest' =>
          match parseValue fuel (skipWhitespace rest') with
          | none => none
          | some (v, rest'') =>
            match skipWhitespace rest'' with
            | '}' :: rest3 => some ([(key, v)], rest3)
            | ',' :: rest3 =>
              match parseMembers fuel (skipWhitespace rest3) with
              | some (ms, rest4) => some ((key, v) :: ms, rest4)
              | none => none
            | _ => none
        | _ => none
    | _ => none

end

/-- The function `JSON.parse` on the characters of a text: one value surrounded by
optional whitespace; anything else is a `SyntaxError`. The fuel bounds the number
of nested calls, at most two for each character: `JSON_parse_fuel_suffices` shows
that more fuel never changes the result. -/
def JSON.parse (text : List Char) : Except JSError JSValue :=
  match parseValue (2 * text.length + 2) (skipWhitespace text) with
  | some (v, rest) =>
    match skipWhitespace rest with
    | [] => Except.ok v
    | _ => Except.error (JSError.SyntaxError "Unexpected token in JSON")
  | none => Except.error (JSError.SyntaxError "Unexpected token in JSON")

/-- The lower-case form of a character: `A`..`Z` to `a`..`z`. Other characters are
left unchanged; JavaScript also lower-cases the letters outside ASCII, which a JSON
text can hold only inside a string literal. -/
def toLowerChar (c : Char) : Char :=
  if 'A' ≤ c ∧ c ≤ 'Z' then Char.ofNat (c.toNat + 32) else c

/-- The method `String.prototype.toLowerCase`, as the characters of the result. -/
def toLowerCase (s : String) : List Char := s.data.map toLowerChar

/-- The environment `process.env`: a variable is a string or is unset. -/
abbrev ProcessEnv := String → Option String

/-- The expression `v && JSON.parse(v.toLowerCase())` for an environment variable
`v`: an unset variable gives `undefined`, an empty one the empty string, without
parsing. -/
def parseIfSet (v : Option String) : Except JSError JSValue :=
  match v with
  | none => Except.ok JSValue.undefined
  | some s => if s.data = [] then Except.ok (JSValue.string []) else JSON.parse (toLowerCase s)

/-- The value of `dialectOptions.ssl`: `true`, or `{ require, rejectUnauthorized }`. -/
inductive SslOption where
  | literalTrue
  | options (require : Bool) (rejectUnauthorized : JSValue)

/-- The object `dialectOptions`; `ssl` is `none` when the property is not set. -/
structure DialectOptions where
  ssl : Option SslOption

/-- The computation of `dialectOptions` at start-up; a `SyntaxError` of
`JSON.parse` aborts it. -/
def dialectOptions (env : ProcessEnv) : Except JSError DialectOptions :=
  match parseIfSet (env "DATABASE_SSL") with
  | Except.error e => Except.error e
  | Except.ok enabled =>
    if ToBoolean enabled then
      match parseIfSet (env "DATABASE_REJECT_UNAUTHORIZED") with
      | Except.error e => Except.error e
      | Except.ok rejectUnauthorized =>
        Except.ok
          { ssl := some (if !ToBoolean rejectUnauthorized
              then SslOption.options true rejectUnauthorized
              else SslOption.literalTrue) }
    else Except.ok { ssl := none }

/-- An environment that sets `DATABASE_SSL` and `DATABASE_REJECT_UNAUTHORIZED`. -/
def envOf (ssl rejectUnauthorized : Option String) : ProcessEnv := fun name =>
  if name = "DATABASE_SSL" then ssl
  else if name = "DATABASE_REJECT_UNAUTHORIZED" then rejectUnauthorized
  else none

/-! ## Example collections -/

/-- Companies 1, 2 and 3. -/
def exampleCompanies : List Record :=
  [[("id", Prim.int 1)], [("id", Prim.int 2)], [("id", Prim.int 3)]]

/-- Three users (two of company 1, one of company 2), one subscription (company 1
on plan 7) and one plan (plan 7, price 100). -/
def exampleTables (name : String) : List Record :=
  if name = "companies" then exampleCompanies
  else if name = "users" then
    [[("id", Prim.int 10), ("company_id", Prim.int 1)],
     [("id", Prim.int 11), ("company_id", Prim.int 1)],
     [("id", Prim.int 12), ("company_id", Prim.int 2)]]
  else if name = "subscriptions" then [[("company_id", Prim.int 1), ("plan_id", Prim.int 7)]]
  else if name = "plans" then [[("id", Prim.int 7), ("price", Prim.int 100)]]
  else []

/-- A context over the example collections. -/
def exampleContext : Context := { dataSource := tableDataSource exampleTables }

/-- One company (1), subscribed to plan 7, the only plan. -/
def singleCompanyTables (name : String) : List Record :=
  if name = "companies" then [[("id", Prim.int 1)]]
  else if name = "subscriptions" then [[("company_id", Prim.int 1), ("plan_id", Prim.int 7)]]
  else if name = "plans" then [[("id", Prim.int 7), ("price", Prim.int 100)]]
  else []

/-- A context over `singleCompanyTables`. -/
def singleCompanyContext : Context := { dataSource := tableDataSource singleCompanyTables }

/-! ## Specification predicates -/

/-- An environment variable is set and parses, lower-cased, to a truthy value. -/
def ParsesTruthy (v : Option String) : Prop :=
  ∃ s w, v = some s ∧ JSON.parse (toLowerCase s) = Except.ok w ∧ ToBoolean w = true

/-- An environment variable is set to `false` in some letter case, possibly
surrounded by JSON whitespace. -/
def IsFalseLiteral (v : Option String) : Prop :=
  ∃ t pre post, v = some t ∧ toLowerCase t = pre ++ ['f', 'a', 'l', 's', 'e'] ++ post ∧
    (∀ c ∈ pre, isJSONWhitespace c = true) ∧ (∀ c ∈ post, isJSONWhitespace c = true)

/-- The value `v` is read off the first element of `rows` satisfying `p`, and is
`d` when no element satisfies `p`. -/
def FirstMatchOr {α : Type} (p : α → Bool) (read : α → Prim) (d : Prim) (rows : List α)
    (v : Prim) : Prop :=
  (∃ j, ∃ h : j < rows.length, p (rows.get ⟨j, h⟩) = true ∧
      (∀ k, ∀ hk : k < j, p (rows.get ⟨k, Nat.lt_trans hk h⟩) = false) ∧
      v = read (rows.get ⟨j, h⟩)) ∨
    ((∀ r ∈ rows, p r = false) ∧ v = d)

/-! ## Lemmas -/

theorem find?_firstMatch {α : Type} (p : α → Bool) (rows : List α) :
    (∃ j, ∃ h : j < rows.length, p (rows.get ⟨j, h⟩) = true ∧
        (∀ k, ∀ hk : k < j, p (rows.get ⟨k, Nat.lt_trans hk h⟩) = false) ∧
        rows.find? p = some (rows.get ⟨j, h⟩)) ∨
      ((∀ r ∈ rows, p r = false) ∧ rows.find? p = none) := by
  induction rows with
  | nil => right; simp
  | cons x xs ih =>
    by_cases hx : p x = true
    · left
      refine ⟨0, by simp, by simpa using hx, ?_, by simp [List.find?, hx]⟩
      intro k hk
      omega
    · have hx' : p x = false := by simpa using hx
      rcases ih with ⟨j, h, hj, hlt, hfind⟩ | ⟨hall, hfind⟩
      · left
        refine ⟨j + 1, by simpa using h, by simpa using hj, ?_, by simpa [List.find?, hx'] using hfind⟩
        intro k hk
        cases k with
        | zero => simpa using hx'
        | succ k => simpa using hlt k (by omega)
      · right
        refine ⟨?_, by simpa [List.find?, hx'] using hfind⟩
        intro r hr
        rcases List.mem_cons.mp hr with rfl | hr
        · exact hx'
        · exact hall r hr

theorem nbUsers_getValues_outcome (records : List Record) (context : Context) :
    (nbUsers.getValues records context).outcome =
      Except.ok (records.map (fun record =>
        nullishCoalescing
          (optionalChain
            (((context.dataSource.getCollection "users").aggregate
                (nbUsers.filter records) nbUsers.aggregation).find?
              (fun r => jsStrictEq (r.group.get "company_id") (record.get "id")))
            (fun r => r.value))
          (Prim.int 0))) := by
  rfl

theorem roundToDouble_exact (z : Int) (h : z.natAbs ≤ 2 ^ 53) :
    roundToDouble z = JSNum.fin z := by
  unfold roundToDouble
  simp only [h, if_true]

theorem Record.get_project (projection : List String) (r : Record) (k : String)
    (hk : k ∈ projection) : (Record.project projection r).get k = r.get k := by
  unfold Record.get Record.project
  induction r with
  | nil => rfl
  | cons kv kvs ih =>
    by_cases h : kv.1 = k
    · have hc : projection.contains kv.1 = true := by
        rw [h]; simpa using hk
      simp only [List.filter_cons, hc, if_true]
      rw [List.find?_cons_of_pos _ (by simpa using h),
        List.find?_cons_of_pos _ (by simpa using h)]
    · by_cases hc : projection.contains kv.1 = true
      · simp only [List.filter_cons, hc, if_true]
        rw [List.find?_cons_of_neg _ (by simpa using h),
          List.find?_cons_of_neg _ (by simpa using h)]
        exact ih
      · simp only [List.filter_cons, hc]
        rw [List.find?_cons_of_neg _ (by simpa using h)]
        exact ih

theorem skipWhitespace_decomp (cs : List Char) :
    ∃ pre, cs = pre ++ skipWhitespace cs ∧ ∀ c ∈ pre, isJSONWhitespace c = true := by
  induction cs with
  | nil => exact ⟨[], rfl, by simp⟩
  | cons c cs ih =>
    by_cases hc : isJSONWhitespace c = true
    · obtain ⟨pre, hpre, hws⟩ := ih
      refine ⟨c :: pre, ?_, ?_⟩
      · simp only [skipWhitespace, hc, if_true, List.cons_append]
        rw [← hpre]
      · intro x hx
        rcases List.mem_cons.mp hx with rfl | hx
        · exact hc
        · exact hws x hx
    · exact ⟨[], by simp [skipWhitespace, hc], by simp⟩

theorem skipWhitespace_eq_nil (cs : List Char) (h : skipWhitespace cs = []) :
    ∀ c ∈ cs, isJSONWhitespace c = true := by
  obtain ⟨pre, hpre, hws⟩ := skipWhitespace_decomp cs
  rw [h, List.append_nil] at hpre
  rw [hpre]
  exact hws

theorem skipWhitespace_append (pre rest : List Char)
    (hpre : ∀ c ∈ pre, isJSONWhitespace c = true) :
    skipWhitespace (pre ++ rest) = skipWhitespace rest := by
  induction pre with
  | nil => rfl
  | cons c cs ih =>
    have hc : isJSONWhitespace c = true := hpre c (List.mem_cons_self c cs)
    simp only [List.cons_append, skipWhitespace, hc, if_true]
    exact ih (fun x hx => hpre x (List.mem_cons_of_mem c hx))

theorem skipWhitespace_of_all (cs : List Char) (h : ∀ c ∈ cs, isJSONWhitespace c = true) :
    skipWhitespace cs = [] := by
  have := skipWhitespace_append cs [] h
  simpa [skipWhitespace] using this

theorem expectChars_eq_some (es cs rest : List Char) (h : expectChars es cs = some rest) :
    cs = es ++ rest := by
  induction es generalizing cs with
  | nil =>
    simp only [expectChars, Option.some.injEq] at h
    simpa using h
  | cons e es ih =>
    cases cs with
    | nil => simp [expectChars] at h
    | cons c cs =>
      simp only [expectChars] at h
      split_ifs at h with hec
      rw [hec, ih cs h, List.cons_append]

theorem parseValue_false (fuel : Nat) (cs rest : List Char)
    (h : parseValue fuel cs = some (JSValue.bool false, rest)) :
    cs = 'f' :: 'a' :: 'l' :: 's' :: 'e' :: rest := by
  cases fuel with
  | zero =>
    rw [parseValue] at h
    simp at h
  | succ fuel =>
    cases cs with
    | nil =>
      rw [parseValue] at h
      · simp at h
      · intro h0
        exact Nat.succ_ne_zero _ h0
    | cons c cs =>
      rw [parseValue] at h
      split_ifs at h with h1 h2 h3 h4 h5 h6
      · split at h
        · simp at h
        · split at h <;> simp at h
      · split at h
        · simp at h
        · split at h <;> simp at h
      · split at h <;> simp at h
      · split at h <;> simp at h
      · split at h
        · rename_i r hr
          simp only [Option.some.injEq, Prod.mk.injEq, true_and] at h
          rw [h5, expectChars_eq_some _ cs r hr, h]
          rfl
        · simp at h
      · split at h <;> simp at h
      · split at h <;> simp at h

theorem JSON_parse_false_iff (text : List Char) :
    JSON.parse text = Except.ok (JSValue.bool false) ↔
      ∃ pre post, text = pre ++ ['f', 'a', 'l', 's', 'e'] ++ post ∧
        (∀ c ∈ pre, isJSONWhitespace c = true) ∧ (∀ c ∈ post, isJSONWhitespace c = true) := by
  constructor
  · intro h
    unfold JSON.parse at h
    split at h
    · rename_i v rest hv
      split at h
      · rename_i hrest
        simp only [Except.ok.injEq] at h
        subst h
        have hcs := parseValue_false _ _ _ hv
        obtain ⟨pre, hpre, hws⟩ := skipWhitespace_decomp text
        refine ⟨pre, rest, ?_, hws, skipWhitespace_eq_nil rest hrest⟩
        rw [hcs] at hpre
        simpa using hpre
      · simp at h
    · simp at h
  · rintro ⟨pre, post, rfl, hpre, hpost⟩
    unfold JSON.parse
    have h1 : skipWhitespace (pre ++ ['f', 'a', 'l', 's', 'e'] ++ post) =
        'f' :: 'a' :: 'l' :: 's' :: 'e' :: post := by
      rw [List.append_assoc, skipWhitespace_append _ _ hpre]
      rfl
    rw [h1, parseValue]
    simp [expectChars, skipWhitespace_of_all post hpost]

theorem JSON_parse_nil : JSON.parse [] = Except.error (JSError.SyntaxError "Unexpected token in JSON") := rfl

theorem toLowerCase_eq_nil (s : String) : toLowerCase s = [] ↔ s.data = [] := by
  simp [toLowerCase]

theorem parseIfSet_truthy (v : Option String) (x : JSValue) (h : parseIfSet v = Except.ok x) :
    ToBoolean x = true ↔ ParsesTruthy v := by
  unfold ParsesTruthy
  cases v with
  | none =>
    simp only [parseIfSet, Except.ok.injEq] at h
    subst h
    simp [ToBoolean]
  | some s =>
    simp only [parseIfSet] at h
    split_ifs at h with hs
    · simp only [Except.ok.injEq] at h
      subst h
      have hl : toLowerCase s = [] := (toLowerCase_eq_nil s).mpr hs
      simp [ToBoolean, hl, JSON_parse_nil]
    · constructor
      · intro hx
        exact ⟨s, x, rfl, h, hx⟩
      · rintro ⟨s', w, hs', hw, hb⟩
        simp only [Option.some.injEq] at hs'
        subst hs'
        rw [h] at hw
        simp only [Except.ok.injEq] at hw
        rw [hw]
        exact hb

theorem parseIfSet_false (v : Option String) :
    parseIfSet v = Except.ok (JSValue.bool false) ↔ IsFalseLiteral v := by
  unfold IsFalseLiteral
  cases v with
  | none => simp [parseIfSet]
  | some s =>
    simp only [parseIfSet]
    split_ifs with hs
    · have hl : toLowerCase s = [] := (toLowerCase_eq_nil s).mpr hs
      simp [hl]
    · rw [JSON_parse_false_iff]
      constructor
      · rintro ⟨pre, post, h, hpre, hpost⟩
        exact ⟨s, pre, post, rfl, h, hpre, hpost⟩
      · rintro ⟨t, pre, post, ht, h, hpre, hpost⟩
        simp only [Option.some.injEq] at ht
        subst ht
        exact ⟨pre, post, h, hpre, hpost⟩

theorem skipWhitespace_length_le (cs : List Char) :
    (skipWhitespace cs).length ≤ cs.length := by
  obtain ⟨pre, hpre, _⟩ := skipWhitespace_decomp cs
  have := congrArg List.length hpre
  simp only [List.length_append] at this
  omega

theorem takeDigits_append (cs : List Char) : (takeDigits cs).1 ++ (takeDigits cs).2 = cs := by
  induction cs with
  | nil => rfl
  | cons c cs ih =>
    simp only [takeDigits]
    split_ifs
    · simp [ih]
    · rfl

theorem takeDigits_length (cs ds rest : List Char) (h : takeDigits cs = (ds, rest)) :
    ds.length + rest.length = cs.length := by
  have := congrArg List.length (takeDigits_append cs)
  rw [h] at this
  simpa only [List.length_append] using this

theorem parseStringTail_length (n : Nat) :
    ∀ cs : List Char, cs.length ≤ n → ∀ units rest,
      parseStringTail cs = some (units, rest) → rest.length ≤ cs.length := by
  induction n with
  | zero =>
    intro cs hn units rest h
    have : cs = [] := List.length_eq_zero.mp (Nat.le_zero.mp hn)
    subst this
    simp [parseStringTail] at h
  | succ n ih =>
    intro cs hn units rest h
    unfold parseStringTail at h
    split at h
    · simp at h
    · simp only [Option.some.injEq, Prod.mk.injEq] at h
      rw [← h.2]
      simp
    · rename_i a b c d rest0
      split at h
      · rename_i x y z w units0 rest1 _ _ _ _ hrec
        simp only [Option.some.injEq, Prod.mk.injEq] at h
        have := ih rest0 (by simp only [List.length_cons] at hn; omega) _ _ hrec
        rw [← h.2]
        simp only [List.length_cons]
        omega
      · simp at h
    · rename_i e rest0 _
      split at h
      · rename_i u units0 rest1 _ hrec
        simp only [Option.some.injEq, Prod.mk.injEq] at h
        have := ih rest0 (by simp only [List.length_cons] at hn; omega) _ _ hrec
        rw [← h.2]
        simp only [List.length_cons]
        omega
      · simp at h
    · rename_i c rest0 _ _ _
      split_ifs at h
      split at h
      · rename_i units0 rest1 hrec
        simp only [Option.some.injEq, Prod.mk.injEq] at h
        have := ih rest0 (by simp only [List.length_cons] at hn; omega) _ _ hrec
        rw [← h.2]
        simp only [List.length_cons]
        omega
      · simp at h

theorem parseFraction_length (cs ds rest : List Char) (h : parseFraction cs = some (ds, rest)) :
    rest.length ≤ cs.length := by
  unfold parseFraction at h
  split at h
  · rename_i cs0
    split at h
    · simp at h
    · rename_i ds0 rest0 _ htd
      simp only [Option.some.injEq, Prod.mk.injEq] at h
      have := takeDigits_length _ _ _ htd
      rw [← h.2]
      simp only [List.length_cons]
      omega
  · simp only [Option.some.injEq, Prod.mk.injEq] at h
    rw [h.2]

theorem parseExponent_length (cs rest : List Char) (e : Int)
    (h : parseExponent cs = some (e, rest)) : rest.length ≤ cs.length := by
  unfold parseExponent at h
  split at h
  · simp only [Option.some.injEq, Prod.mk.injEq] at h
    rw [← h.2]
  · rename_i c cs0
    split_ifs at h
    · split at h
      · split at h
        · simp at h
        · rename_i htd
          simp only [Option.some.injEq, Prod.mk.injEq] at h
          have := takeDigits_length _ _ _ htd
          rw [← h.2]
          simp only [List.length_cons]
          omega
      · split at h
        · simp at h
        · rename_i htd
          simp only [Option.some.injEq, Prod.mk.injEq] at h
          have := takeDigits_length _ _ _ htd
          rw [← h.2]
          simp only [List.length_cons]
          omega
      · split at h
        · simp at h
        · rename_i htd
          simp only [Option.some.injEq, Prod.mk.injEq] at h
          have := takeDigits_length _ _ _ htd
          rw [← h.2]
          simp only [List.length_cons]
          omega
    · simp only [Option.some.injEq, Prod.mk.injEq] at h
      rw [← h.2]

theorem parseUnsignedNumber_length (negative : Bool) (cs rest : List Char) (n : JSONNumber)
    (h : parseUnsignedNumber negative cs = some (n, rest)) : rest.length ≤ cs.length := by
  unfold parseUnsignedNumber at h
  split at h
  · simp at h
  · rename_i d ds rest0 htd
    have hlen := takeDigits_length _ _ _ htd
    simp only at h
    split at h
    · simp at h
    · rename_i fracDigits rest2 hfrac
      have hf := parseFraction_length _ _ _ hfrac
      split at h
      · simp at h
      · rename_i e rest3 hexp
        have he := parseExponent_length _ _ _ hexp
        simp only [Option.some.injEq, Prod.mk.injEq] at h
        rw [← h.2]
        have h1 : (if d = '0' then ds ++ rest0 else rest0).length ≤ cs.length := by
          split_ifs
          · simp only [List.length_append, List.length_cons] at hlen ⊢
            omega
          · simp only [List.length_cons] at hlen
            omega
        omega

theorem parseNumber_length (cs rest : List Char) (n : JSONNumber)
    (h : parseNumber cs = some (n, rest)) : rest.length ≤ cs.length := by
  unfold parseNumber at h
  split at h
  · have := parseUnsignedNumber_length _ _ _ _ h
    simp only [List.length_cons]
    omega
  · exact parseUnsignedNumber_length _ _ _ _ h

theorem expectChars_length (es cs rest : List Char) (h : expectChars es cs = some rest) :
    rest.length ≤ cs.length := by
  rw [expectChars_eq_some es cs rest h]
  simp

theorem parse_fuel_stable (f : Nat) :
    (∀ cs v rest, parseValue f cs = some (v, rest) →
      rest.length ≤ cs.length ∧
        ∀ F, 2 * cs.length ≤ F → parseValue F cs = some (v, rest)) ∧
    (∀ cs vs rest, parseElements f cs = some (vs, rest) →
      rest.length ≤ cs.length ∧
        ∀ F, 2 * cs.length + 1 ≤ F → parseElements F cs = some (vs, rest)) ∧
    (∀ cs ms rest, parseMembers f cs = some (ms, rest) →
      rest.length ≤ cs.length ∧
        ∀ F, 2 * cs.length + 1 ≤ F → parseMembers F cs = some (ms, rest)) := by
  induction f with
  | zero =>
    refine ⟨?_, ?_, ?_⟩
    · intro cs v rest h
      rw [parseValue] at h
      simp at h
    · intro cs vs rest h
      rw [parseElements] at h
      simp at h
    · intro cs ms rest h
      unfold parseMembers at h
      simp at h
  | succ f ih =>
    obtain ⟨ihV, ihE, ihM⟩ := ih
    refine ⟨?_, ?_, ?_⟩
    · intro cs v rest h
      cases cs with
      | nil =>
        rw [parseValue] at h
        · simp at h
        · intro h0
          exact Nat.succ_ne_zero _ h0
      | cons c cs =>
        have hsk := skipWhitespace_length_le cs
        rw [parseValue] at h
        have key : ∀ F, 2 * (c :: cs).length ≤ F → ∃ F', F = F' + 1 ∧ 2 * cs.length + 1 ≤ F' := by
          intro F hF
          simp only [List.length_cons] at hF
          exact ⟨F - 1, by omega, by omega⟩
        split_ifs at h with h1 h2 h3 h4 h5 h6
        · split at h
          · rename_i rest1 hrest1
            simp only [Option.some.injEq, Prod.mk.injEq] at h
            obtain ⟨hv, hr⟩ := h
            subst hv hr
            refine ⟨?_, ?_⟩
            · rw [hrest1] at hsk
              simp only [List.length_cons] at hsk ⊢
              omega
            · intro F hF
              obtain ⟨F', rfl, hF'⟩ := key F hF
              rw [parseValue, if_pos h1]
              simp only [hrest1]
          · rename_i cs' hne
            split at h
            · rename_i members rest1 hmem
              simp only [Option.some.injEq, Prod.mk.injEq] at h
              obtain ⟨hv, hr⟩ := h
              subst hv hr
              obtain ⟨hlen, hstable⟩ := ihM _ _ _ hmem
              refine ⟨?_, ?_⟩
              · simp only [List.length_cons]
                omega
              · intro F hF
                obtain ⟨F', rfl, hF'⟩ := key F hF
                have hst := hstable F' (by omega)
                rw [parseValue, if_pos h1]
                simp only [hst]
            · simp at h
        · split at h
          · rename_i rest1 hrest1
            simp only [Option.some.injEq, Prod.mk.injEq] at h
            obtain ⟨hv, hr⟩ := h
            subst hv hr
            refine ⟨?_, ?_⟩
            · rw [hrest1] at hsk
              simp only [List.length_cons] at hsk ⊢
              omega
            · intro F hF
              obtain ⟨F', rfl, hF'⟩ := key F hF
              rw [parseValue, if_neg h1, if_pos h2]
              simp only [hrest1]
          · rename_i cs' hne
            split at h
            · rename_i elements rest1 hel
              simp only [Option.some.injEq, Prod.mk.injEq] at h
              obtain ⟨hv, hr⟩ := h
              subst hv hr
              obtain ⟨hlen, hstable⟩ := ihE _ _ _ hel
              refine ⟨?_, ?_⟩
              · simp only [List.length_cons]
                omega
              · intro F hF
                obtain ⟨F', rfl, hF'⟩ := key F hF
                have hst := hstable F' (by omega)
                rw [parseValue, if_neg h1, if_pos h2]
                simp only [hst]
            · simp at h
        · split at h
          · rename_i units rest1 hstr
            simp only [Option.some.injEq, Prod.mk.injEq] at h
            obtain ⟨hv, hr⟩ := h
            subst hv hr
            have hlen := parseStringTail_length _ cs (Nat.le_refl _) _ _ hstr
            refine ⟨?_, ?_⟩
            · simp only [List.length_cons]
              omega
            · intro F hF
              obtain ⟨F', rfl, hF'⟩ := key F hF
              rw [parseValue, if_neg h1, if_neg h2, if_pos h3]
              simp only [hstr]
          · simp at h
        · split at h
          · rename_i rest1 hexp
            simp only [Option.some.injEq, Prod.mk.injEq] at h
            obtain ⟨hv, hr⟩ := h
            subst hv hr
            have hlen := expectChars_length _ _ _ hexp
            refine ⟨?_, ?_⟩
            · simp only [List.length_cons]
              omega
            · intro F hF
              obtain ⟨F', rfl, hF'⟩ := key F hF
              rw [parseValue, if_neg h1, if_neg h2, if_neg h3, if_pos h4]
              simp only [hexp]
          · simp at h
        · split at h
          · rename_i rest1 hexp
            simp only [Option.some.injEq, Prod.mk.injEq] at h
            obtain ⟨hv, hr⟩ := h
            subst hv hr
            have hlen := expectChars_length _ _ _ hexp
            refine ⟨?_, ?_⟩
            · simp only [List.length_cons]
              omega
            · intro F hF
              obtain ⟨F', rfl, hF'⟩ := key F hF
              rw [parseValue, if_neg h1, if_neg h2, if_neg h3, if_neg h4, if_pos h5]
              simp only [hexp]
          · simp at h
        · split at h
          · rename_i rest1 hexp
            simp only [Option.some.injEq, Prod.mk.injEq] at h
            obtain ⟨hv, hr⟩ := h
            subst hv hr
            have hlen := expectChars_length _ _ _ hexp
            refine ⟨?_, ?_⟩
            · simp only [List.length_cons]
              omega
            · intro F hF
              obtain ⟨F', rfl, hF'⟩ := key F hF
              rw [parseValue, if_neg h1, if_neg h2, if_neg h3, if_neg h4, if_neg h5, if_pos h6]
              simp only [hexp]
          · simp at h
        · split at h
          · rename_i n rest1 hnum
            simp only [Option.some.injEq, Prod.mk.injEq] at h
            obtain ⟨hv, hr⟩ := h
            subst hv hr
            have hlen := parseNumber_length _ _ _ hnum
            refine ⟨hlen, ?_⟩
            intro F hF
            obtain ⟨F', rfl, hF'⟩ := key F hF
            rw [parseValue, if_neg h1, if_neg h2, if_neg h3, if_neg h4, if_neg h5, if_neg h6]
            simp only [hnum]
          · simp at h
    · intro cs vs rest h
      rw [parseElements] at h
      have key : ∀ F, 2 * cs.length + 1 ≤ F → ∃ F', F = F' + 1 ∧ 2 * cs.length ≤ F' :=
        fun F hF => ⟨F - 1, by omega, by omega⟩
      split at h
      · simp at h
      · rename_i v rest0 hv
        obtain ⟨hlenV, hstV⟩ := ihV _ _ _ hv
        have hsk := skipWhitespace_length_le rest0
        split at h
        · rename_i rest1 hrest1
          simp only [Option.some.injEq, Prod.mk.injEq] at h
          obtain ⟨hvs, hr⟩ := h
          subst hvs hr
          rw [hrest1] at hsk
          simp only [List.length_cons] at hsk
          refine ⟨by omega, ?_⟩
          intro F hF
          obtain ⟨F', rfl, hF'⟩ := key F hF
          rw [parseElements]
          simp only [hstV F' hF', hrest1]
        · rename_i rest1 hrest1
          rw [hrest1] at hsk
          simp only [List.length_cons] at hsk
          have hsk1 := skipWhitespace_length_le rest1
          split at h
          · rename_i vs0 rest2 hrec
            simp only [Option.some.injEq, Prod.mk.injEq] at h
            obtain ⟨hvs, hr⟩ := h
            subst hvs hr
            obtain ⟨hlenE, hstE⟩ := ihE _ _ _ hrec
            refine ⟨by omega, ?_⟩
            intro F hF
            obtain ⟨F', rfl, hF'⟩ := key F hF
            rw [parseElements]
            simp only [hstV F' hF', hrest1, hstE F' (by omega)]
          · simp at h
        · simp at h
    · intro cs ms rest h
      unfold parseMembers at h
      have key : ∀ F, 2 * cs.length + 1 ≤ F → ∃ F', F = F' + 1 ∧ 2 * cs.length ≤ F' :=
        fun F hF => ⟨F - 1, by omega, by omega⟩
      split at h
      · rename_i cs0
        split at h
        · simp at h
        · rename_i key0 rest0 hkey
          have hlenK := parseStringTail_length _ cs0 (Nat.le_refl _) _ _ hkey
          have hsk0 := skipWhitespace_length_le rest0
          split at h
          · rename_i rest1 hrest1
            rw [hrest1] at hsk0
            simp only [List.length_cons] at hsk0
            have hsk1 := skipWhitespace_length_le rest1
            split at h
            · simp at h
            · rename_i v rest2 hv
              obtain ⟨hlenV, hstV⟩ := ihV _ _ _ hv
              have hsk2 := skipWhitespace_length_le rest2
              split at h
              · rename_i rest3 hrest3
                simp only [Option.some.injEq, Prod.mk.injEq] at h
                obtain ⟨hms, hr⟩ := h
                subst hms hr
                rw [hrest3] at hsk2
                simp only [List.length_cons] at hsk2 key ⊢
                refine ⟨by omega, ?_⟩
                intro F hF
                obtain ⟨F', rfl, hF'⟩ := key F hF
                rw [parseMembers]
                simp only [hkey, hrest1, hstV F' (by omega), hrest3]
              · rename_i rest3 hrest3
                rw [hrest3] at hsk2
                simp only [List.length_cons] at hsk2 key ⊢
                have hsk3 := skipWhitespace_length_le rest3
                split at h
                · rename_i ms0 rest4 hrec
                  simp only [Option.some.injEq, Prod.mk.injEq] at h
                  obtain ⟨hms, hr⟩ := h
                  subst hms hr
                  obtain ⟨hlenM, hstM⟩ := ihM _ _ _ hrec
                  refine ⟨by omega, ?_⟩
                  intro F hF
                  obtain ⟨F', rfl, hF'⟩ := key F hF
                  rw [parseMembers]
                  simp only [hkey, hrest1, hstV F' (by omega), hrest3, hstM F' (by omega)]
                · simp at h
              · simp at h
          · simp at h
      · simp at h

theorem JSON_parse_fuel_suffices (text : List Char) (fuel : Nat) (v : JSValue)
    (rest : List Char) (h : parseValue fuel (skipWhitespace text) = some (v, rest)) :
    parseValue (2 * text.length + 2) (skipWhitespace text) = some (v, rest) := by
  have hsk := skipWhitespace_length_le text
  exact ((parse_fuel_stable fuel).1 _ _ _ h).2 _ (by omega)

theorem arrayMap_error_of_mem {α β : Type} (f : α → Except JSError β) (xs : List α) (x : α)
    (hx : x ∈ xs) (hf : ∃ e, f x = Except.error e) : ∃ e, arrayMap f xs = Except.error e := by
  induction xs with
  | nil => simp at hx
  | cons y ys ih =>
    simp only [arrayMap]
    cases hy : f y with
    | error e => exact ⟨e, rfl⟩
    | ok v =>
      rcases List.mem_cons.mp hx with rfl | hmem
      · obtain ⟨e, he⟩ := hf
        rw [hy] at he
        cases he
      · obtain ⟨e, he⟩ := ih hmem
        simp only [he]
        exact ⟨e, rfl⟩

theorem arrayMap_ok_of_forall {α β : Type} (f : α → Except JSError β) (g : α → β)
    (xs : List α) (h : ∀ x ∈ xs, f x = Except.ok (g x)) :
    arrayMap f xs = Except.ok (xs.map g) := by
  induction xs with
  | nil => rfl
  | cons y ys ih =>
    simp only [arrayMap, h y (List.mem_cons_self y ys),
      ih (fun x hx => h x (List.mem_cons_of_mem y hx)), List.map_cons]

theorem planId_getValues_rejects (records : List Record) (context : Context) (record : Record)
    (hmem : record ∈ records)
    (hnone : ∀ row ∈ (context.dataSource.getCollection "subscriptions").list
        (planId.filter records) ["company_id", "plan_id"],
      jsStrictEq (row.get "company_id") (record.get "id") = false) :
    ∃ e, (planId.getValues records context).outcome = Except.error e := by
  show ∃ e, arrayMap _ records = Except.error e
  apply arrayMap_error_of_mem _ records record hmem
  have hfind : ((context.dataSource.getCollection "subscriptions").list
      (planId.filter records) ["company_id", "plan_id"]).find?
      (fun r => jsStrictEq (r.get "company_id") (record.get "id")) = none := by
    rw [List.find?_eq_none]
    intro row hrow
    simp [hnone row hrow]
  simp only [hfind, readProperty]
  exact ⟨_, rfl⟩

theorem planPrice_getValues_rejects (records : List Record) (context : Context)
    (record : Record) (hmem : record ∈ records)
    (hnone : ∀ row ∈ (context.dataSource.getCollection "plans").list
        (planPrice.filter records) ["id", "price"],
      jsStrictEq (row.get "id") (record.get "planId") = false) :
    ∃ e, (planPrice.getValues records context).outcome = Except.error e := by
  show ∃ e, arrayMap _ records = Except.error e
  apply arrayMap_error_of_mem _ records record hmem
  have hfind : ((context.dataSource.getCollection "plans").list
      (planPrice.filter records) ["id", "price"]).find?
      (fun r => jsStrictEq (r.get "id") (record.get "planId")) = none := by
    rw [List.find?_eq_none]
    intro row hrow
    simp [hnone row hrow]
  simp only [hfind, readProperty]
  exact ⟨_, rfl⟩


theorem planId_getValues_resolves (records : List Record) (context : Context)
    (hall : ∀ record ∈ records, ∃ row ∈ (context.dataSource.getCollection "subscriptions").list
        (planId.filter records) ["company_id", "plan_id"],
      jsStrictEq (row.get "company_id") (record.get "id") = true) :
    (planId.getValues records context).outcome =
      Except.ok (records.map (fun record =>
        optionalChain
          (((context.dataSource.getCollection "subscriptions").list
            (planId.filter records) ["company_id", "plan_id"]).find?
            (fun r => jsStrictEq (r.get "company_id") (record.get "id")))
          (fun r => r.get "plan_id"))) := by
  show arrayMap _ records = _
  apply arrayMap_ok_of_forall
  intro record hrecord
  obtain ⟨row, hrow, hp⟩ := hall record hrecord
  cases hfind : ((context.dataSource.getCollection "subscriptions").list
      (planId.filter records) ["company_id", "plan_id"]).find?
      (fun r => jsStrictEq (r.get "company_id") (record.get "id")) with
  | none =>
    rw [List.find?_eq_none] at hfind
    exact absurd hp (hfind row hrow)
  | some r => rfl

theorem planPrice_getValues_resolves (records : List Record) (context : Context)
    (hall : ∀ record ∈ records, ∃ row ∈ (context.dataSource.getCollection "plans").list
        (planPrice.filter records) ["id", "price"],
      jsStrictEq (row.get "id") (record.get "planId") = true) :
    (planPrice.getValues records context).outcome =
      Except.ok (records.map (fun record =>
        optionalChain
          (((context.dataSource.getCollection "plans").list
            (planPrice.filter records) ["id", "price"]).find?
            (fun r => jsStrictEq (r.get "id") (record.get "planId")))
          (fun r => r.get "price"))) := by
  show arrayMap _ records = _
  apply arrayMap_ok_of_forall
  intro record hrecord
  obtain ⟨row, hrow, hp⟩ := hall record hrecord
  cases hfind : ((context.dataSource.getCollection "plans").list
      (planPrice.filter records) ["id", "price"]).find?
      (fun r => jsStrictEq (r.get "id") (record.get "planId")) with
  | none =>
    rw [List.find?_eq_none] at hfind
    exact absurd hp (hfind row hrow)
  | some r => rfl

/-! ## Theorems -/

/-- C1: on a batch of company records, with aggregate rows whose values are numbers,
the `nbUsers` resolver resolves to a list as long as the batch; its i-th element is
the value of the first aggregate row whose `group.company_id` is strictly equal to
the i-th record's `id`, and `0` when no aggregate row has that `company_id`. -/
theorem nbUsers_getValues_spec (records : List Record) (context : Context)
    (rows : List AggregateResult)
    (hrows : (context.dataSource.getCollection "users").aggregate
      (nbUsers.filter records) nbUsers.aggregation = rows)
    (hvalues : ∀ row ∈ rows, ∃ n, row.value = Prim.num n) :
    ∃ values, (nbUsers.getValues records context).outcome = Except.ok values ∧
      values.length = records.length ∧
      ∀ i, ∀ h : i < records.length, ∃ v, values[i]? = some v ∧
        FirstMatchOr
          (fun r => jsStrictEq (r.group.get "company_id") ((records.get ⟨i, h⟩).get "id"))
          (fun r => r.value) (Prim.int 0) rows v := by
  refine ⟨_, nbUsers_getValues_outcome records context, by simp, ?_⟩
  intro i h
  rw [hrows]
  refine ⟨_, by simp [List.getElem?_map, List.getElem?_eq_getElem h]; rfl, ?_⟩
  rcases find?_firstMatch
    (fun r : AggregateResult =>
      jsStrictEq (r.group.get "company_id") ((records.get ⟨i, h⟩).get "id")) rows with
    ⟨j, hj, hp, hlt, hfind⟩ | ⟨hall, hfind⟩
  · left
    refine ⟨j, hj, hp, hlt, ?_⟩
    simp only [List.get_eq_getElem] at hfind ⊢
    rw [hfind]
    obtain ⟨n, hn⟩ := hvalues _ (List.getElem_mem hj)
    simp [optionalChain, nullishCoalescing, hn]
  · right
    refine ⟨hall, ?_⟩
    simp only [List.get_eq_getElem] at hfind ⊢
    rw [hfind]
    rfl

/-- Witness of C1: companies 1, 2 and 3 with two users in company 1 and one in
company 2 resolve to 2, 1 and 0. -/
theorem nbUsers_getValues_spec_witness :
    (nbUsers.getValues exampleCompanies exampleContext).outcome =
        Except.ok [Prim.int 2, Prim.int 1, Prim.int 0] ∧
      ∃ values, (nbUsers.getValues exampleCompanies exampleContext).outcome = Except.ok values ∧
        values.length = exampleCompanies.length ∧
        ∀ i, ∀ h : i < exampleCompanies.length, ∃ v, values[i]? = some v ∧
          FirstMatchOr
            (fun r : AggregateResult => jsStrictEq (r.group.get "company_id")
              ((exampleCompanies.get ⟨i, h⟩).get "id"))
            (fun r => r.value) (Prim.int 0)
            [{ value := Prim.int 2, group := [("company_id", Prim.int 1)] },
             { value := Prim.int 1, group := [("company_id", Prim.int 2)] }] v :=
  ⟨by rfl,
    nbUsers_getValues_spec exampleCompanies exampleContext
      [{ value := Prim.int 2, group := [("company_id", Prim.int 1)] },
       { value := Prim.int 1, group := [("company_id", Prim.int 2)] }]
      (by decide)
      (by
        intro row hrow
        simp only [List.mem_cons, List.mem_singleton, List.not_mem_nil, or_false] at hrow
        rcases hrow with rfl | rfl
        · exact ⟨_, rfl⟩
        · exact ⟨_, rfl⟩)⟩

/-- C2: with companies 1 and 2 and the single subscription of company 1 to plan 7,
the list call returns that one row and the `planId` resolver rejects with a
`TypeError` instead of resolving to one value per record. -/
theorem planId_getValues_missing_subscription :
    (exampleContext.dataSource.getCollection "subscriptions").list
        (planId.filter [[("id", Prim.int 1)], [("id", Prim.int 2)]]) ["company_id", "plan_id"] =
        [[("company_id", Prim.int 1), ("plan_id", Prim.int 7)]] ∧
      (planId.getValues [[("id", Prim.int 1)], [("id", Prim.int 2)]] exampleContext).outcome =
        Except.error
          (JSError.TypeError "Cannot read properties of undefined (reading plan_id)") :=
  ⟨by decide, by rfl⟩

/-- C5: whatever the batch, each cross-collection resolver issues exactly one
DataSource call: a `list` on `subscriptions` for `planId`, an `aggregate` on `users`
for `nbUsers`, a `list` on `plans` for `planPrice`; its condition is an `In` leaf
whose value lists the keys of the batch (`id`, `id`, `planId`) in batch order. -/
theorem resolvers_issue_one_query (records : List Record) (context : Context) :
    (planId.getValues records context).calls =
        [Call.list "subscriptions"
          { conditionTree :=
              { field := "company_id", operator := "In",
                value := records.map (fun r => r.get "id") } }
          ["company_id", "plan_id"]] ∧
      (nbUsers.getValues records context).calls =
        [Call.aggregate "users"
          { conditionTree :=
              { field := "company_id", operator := "In",
                value := records.map (fun r => r.get "id") } }
          { operation := "Count", field := "id", groups := [{ field := "company_id" }] }] ∧
      (planPrice.getValues records context).calls =
        [Call.list "plans"
          { conditionTree :=
              { field := "id", operator := "In",
                value := records.map (fun r => r.get "planId") } }
          ["id", "price"]] :=
  ⟨rfl, rfl, rfl⟩

/-- C7, as stated, fails: a record with `nbUsers = 0` and no `planPrice` resolves to
`NaN`, whatever the conversion of strings is. -/
theorem MRR_missing_planPrice_is_NaN :
    Record.get [("id", Prim.int 1), ("nbUsers", Prim.int 0)] "nbUsers" = Prim.int 0 ∧
      Record.get [("id", Prim.int 1), ("nbUsers", Prim.int 0)] "planPrice" = Prim.undefined ∧
      ∀ StringToNumber : String → JSNum,
        MRR.getValues StringToNumber [[("id", Prim.int 1), ("nbUsers", Prim.int 0)]] =
          [Prim.num JSNum.nan] :=
  ⟨by decide, by decide, fun _ => rfl⟩

/-- C7, amended: for a record whose `nbUsers` is `0` and whose `planPrice` converts
to a finite number, the `MRR` resolver yields `0`. -/
theorem MRR_zero_users (StringToNumber : String → JSNum) (r : Record) (p : Int)
    (hn : r.get "nbUsers" = Prim.int 0)
    (hp : ToNumber StringToNumber (r.get "planPrice") = JSNum.fin p) :
    MRR.getValues StringToNumber [r] = [Prim.int 0] := by
  have h0 : ToNumber StringToNumber (Prim.int 0) = JSNum.fin 0 := rfl
  simp only [MRR.getValues, List.map_cons, List.map_nil, jsMul, hn, hp, h0]
  simp only [JSNum.mul, mul_zero, Prim.int]
  rw [roundToDouble_exact 0 (by decide)]

/-- Witness of C7 amended: `planPrice = 100` and `nbUsers = 0` resolve to `0`. -/
theorem MRR_zero_users_witness :
    MRR.getValues (fun _ => JSNum.nan)
        [[("id", Prim.int 1), ("planPrice", Prim.int 100), ("nbUsers", Prim.int 0)]] =
      [Prim.int 0] :=
  MRR_zero_users (fun _ => JSNum.nan)
    [("id", Prim.int 1), ("planPrice", Prim.int 100), ("nbUsers", Prim.int 0)] 100
    (by decide) (by decide)

/-- C8: with the single plan 7, a batch holding a company whose `planId` is 8, or a
company whose `planId` is unresolved, makes the `planPrice` resolver reject with a
`TypeError` instead of resolving to one value per record. -/
theorem planPrice_getValues_missing_plan :
    (planPrice.getValues
        [[("id", Prim.int 1), ("planId", Prim.int 7)], [("id", Prim.int 2), ("planId", Prim.int 8)]]
        exampleContext).outcome =
        Except.error (JSError.TypeError "Cannot read properties of undefined (reading price)") ∧
      (planPrice.getValues
        [[("id", Prim.int 1), ("planId", Prim.int 7)], [("id", Prim.int 2)]]
        exampleContext).outcome =
        Except.error (JSError.TypeError "Cannot read properties of undefined (reading price)") ∧
      (planPrice.getValues [[("id", Prim.int 1), ("planId", Prim.int 7)]] exampleContext).outcome =
        Except.ok [Prim.int 100] :=
  ⟨by rfl, by rfl, by rfl⟩

/-- C10: whatever the context (hence whatever the submitted form values), `execute`
of `Cancel subscription` resolves to the `Success` result with message
`Subscription cancelled!`, the same for any two contexts, without querying the
DataSource; the form has the single field `Are you sure?`, whose default value is
one of its enum values. -/
theorem cancelSubscription_execute (context : ActionContext) :
    (CancelSubscription.execute context resultBuilder).outcome =
        Except.ok (ActionResult.Success "Subscription cancelled!") ∧
      (∀ context' : ActionContext,
        (CancelSubscription.execute context' resultBuilder).outcome =
          (CancelSubscription.execute context resultBuilder).outcome) ∧
      (∀ builder : ResultBuilder,
        (CancelSubscription.execute context builder).outcome =
          Except.ok (builder.success "Subscription cancelled!")) ∧
      (CancelSubscription.execute context resultBuilder).calls = [] ∧
      (CancelSubscription.form.map (fun f => f.label)) = ["Are you sure?"] ∧
      ∀ f ∈ CancelSubscription.form,
        f.defaultValue = "⛔️ No" ∧ f.defaultValue ∈ f.enumValues := by
  refine ⟨rfl, fun _ => rfl, fun _ => rfl, rfl, rfl, ?_⟩
  intro f hf
  simp only [CancelSubscription.form, List.mem_singleton] at hf
  subst hf
  exact ⟨rfl, by decide⟩

/-- C3: with company 1 subscribed to plan 7 and `X = [7]`, the resolved `planId` of
company 1 is 7, a member of `X`, yet the condition the override returns, `id In [7]`,
is satisfied by no company: the rewritten condition is not equivalent. -/
theorem planId_In_override_not_equivalent :
    (planId.getValues (singleCompanyTables "companies") singleCompanyContext).outcome =
        Except.ok [Prim.int 7] ∧
      (planId.replaceFieldOperator_In [Prim.int 7] singleCompanyContext).outcome =
        Except.ok { field := "id", operator := "In", value := [Prim.int 7] } ∧
      (singleCompanyTables "companies").filter
        (ConditionTreeLeaf.holds { field := "id", operator := "In", value := [Prim.int 7] }) = [] ∧
      (singleCompanyContext.dataSource.getCollection "companies").list
        { conditionTree := { field := "id", operator := "In", value := [Prim.int 7] } } ["id"] =
        [] :=
  ⟨by rfl, by rfl, by decide, by decide⟩

/-- C4: for every list `X` of plan ids the override of `planId` for `In` issues one
`list` on `plans` and resolves to a single leaf whose operator is `In`, whose field
is `id`, which is none of the virtual fields of `companies`, and whose value lists
the `id` of the rows the `list` call returned, in that order; over tables, these are
the ids of the plans whose id is in `X`, in table order. -/
theorem planId_In_override_leaf (X : List Prim) (context : Context)
    (tables : String → List Record) :
    (∃ leaf, (planId.replaceFieldOperator_In X context).outcome = Except.ok leaf ∧
        leaf.operator = "In" ∧ leaf.field = "id" ∧ leaf.field ∉ companiesVirtualFields ∧
        leaf.value =
          ((context.dataSource.getCollection "plans").list
            { conditionTree := { field := "id", operator := "In", value := X } } ["id"]).map
            (fun r => r.get "id")) ∧
      (planId.replaceFieldOperator_In X context).calls =
        [Call.list "plans"
          { conditionTree := { field := "id", operator := "In", value := X } } ["id"]] ∧
      (planId.replaceFieldOperator_In X { dataSource := tableDataSource tables }).outcome =
        Except.ok
          { field := "id", operator := "In",
            value := ((tables "plans").filter
              (fun plan => X.any (fun x => jsStrictEq (plan.get "id") x))).map
              (fun plan => plan.get "id") } := by
  have hconcrete : "id" ∉ companiesVirtualFields := by decide
  refine ⟨⟨_, rfl, rfl, rfl, hconcrete, rfl⟩, rfl, ?_⟩
  show Except.ok _ = Except.ok _
  congr 2
  simp only [tableDataSource, List.map_map]
  have hholds : (ConditionTreeLeaf.holds { field := "id", operator := "In", value := X }) =
      (fun plan : Record => X.any (fun x => jsStrictEq (plan.get "id") x)) := by
    funext plan
    simp [ConditionTreeLeaf.holds]
  rw [hholds]
  apply List.map_congr_left
  intro plan _
  exact Record.get_project ["id"] plan "id" (by simp)

/-- C9, as stated, fails: with `DATABASE_REJECT_UNAUTHORIZED` set to `false` preceded
by a space, which is not the word `false` in any letter case, `rejectUnauthorized`
is the boolean `false`. -/
theorem dialectOptions_false_with_whitespace :
    dialectOptions (envOf (some "true") (some " false")) =
        Except.ok { ssl := some (SslOption.options true (JSValue.bool false)) } ∧
      toLowerCase " false" ≠ ['f', 'a', 'l', 's', 'e'] :=
  ⟨by rfl, by decide⟩

/-- C9, amended: when both variables parse without error, `dialectOptions.ssl` is set
exactly when `DATABASE_SSL` is set and parses, lower-cased, to a truthy value; it is
then the literal `true` exactly when `DATABASE_REJECT_UNAUTHORIZED` is set and parses
to a truthy value, and otherwise `{ require: true, rejectUnauthorized: r }`, where `r`
is the boolean `false` exactly when `DATABASE_REJECT_UNAUTHORIZED` is set to `false`
in some letter case, possibly surrounded by JSON whitespace, and is `undefined`
when the variable is unset. -/
theorem dialectOptions_spec (env : ProcessEnv) (d : DialectOptions)
    (h : dialectOptions env = Except.ok d) :
    (d.ssl.isSome = true ↔ ParsesTruthy (env "DATABASE_SSL")) ∧
      (d.ssl.isSome = true →
        (d.ssl = some SslOption.literalTrue ↔
          ParsesTruthy (env "DATABASE_REJECT_UNAUTHORIZED")) ∧
        (¬ ParsesTruthy (env "DATABASE_REJECT_UNAUTHORIZED") →
          ∃ r, d.ssl = some (SslOption.options true r))) ∧
      (∀ q r, d.ssl = some (SslOption.options q r) →
        q = true ∧
        (r = JSValue.bool false ↔ IsFalseLiteral (env "DATABASE_REJECT_UNAUTHORIZED")) ∧
        (env "DATABASE_REJECT_UNAUTHORIZED" = none → r = JSValue.undefined)) := by
  unfold dialectOptions at h
  split at h
  · simp at h
  · rename_i enabled hssl
    have htruthy := parseIfSet_truthy _ _ hssl
    split_ifs at h with hen
    · split at h
      · simp at h
      · rename_i rejectUnauthorized hru
        have hrt := parseIfSet_truthy _ _ hru
        simp only [Except.ok.injEq] at h
        subst h
        by_cases hr : ToBoolean rejectUnauthorized = true
        · have hpt : ParsesTruthy (env "DATABASE_REJECT_UNAUTHORIZED") := hrt.mp hr
          have hd : (if (!ToBoolean rejectUnauthorized) = true
              then SslOption.options true rejectUnauthorized
              else SslOption.literalTrue) = SslOption.literalTrue := by simp [hr]
          simp only [hd]
          refine ⟨⟨fun _ => htruthy.mp hen, fun _ => rfl⟩,
            fun _ => ⟨⟨fun _ => hpt, fun _ => trivial⟩, fun hn => absurd hpt hn⟩, ?_⟩
          intro q r hq
          simp at hq
        · have hpt : ¬ ParsesTruthy (env "DATABASE_REJECT_UNAUTHORIZED") :=
            fun hp => hr (hrt.mpr hp)
          have hd : (if (!ToBoolean rejectUnauthorized) = true
              then SslOption.options true rejectUnauthorized
              else SslOption.literalTrue) = SslOption.options true rejectUnauthorized := by
            simp [hr]
          simp only [hd]
          refine ⟨⟨fun _ => htruthy.mp hen, fun _ => rfl⟩,
            fun _ => ⟨⟨fun hc => by simp at hc, fun hp => absurd hp hpt⟩,
              fun _ => ⟨_, rfl⟩⟩, ?_⟩
          intro q r hq
          simp only [Option.some.injEq, SslOption.options.injEq] at hq
          obtain ⟨hq1, hq2⟩ := hq
          subst hq1 hq2
          refine ⟨rfl, ?_, ?_⟩
          · rw [← parseIfSet_false, hru]
            constructor
            · intro hx; rw [hx]
            · intro hx; exact Except.ok.inj hx
          · intro hnone
            rw [hnone] at hru
            simp only [parseIfSet, Except.ok.injEq] at hru
            exact hru.symm
    · simp only [Except.ok.injEq] at h
      subst h
      have hnp : ¬ ParsesTruthy (env "DATABASE_SSL") := fun hp => hen (htruthy.mpr hp)
      simp [hnp]

/-- Witness of C9 amended: `DATABASE_SSL=TRUE` with
`DATABASE_REJECT_UNAUTHORIZED=False` gives `{ require: true, rejectUnauthorized: false }`. -/
theorem dialectOptions_spec_witness :
    dialectOptions (envOf (some "TRUE") (some "False")) =
        Except.ok { ssl := some (SslOption.options true (JSValue.bool false)) } ∧
      ParsesTruthy (envOf (some "TRUE") (some "False") "DATABASE_SSL") ∧
      IsFalseLiteral (envOf (some "TRUE") (some "False") "DATABASE_REJECT_UNAUTHORIZED") :=
  ⟨by rfl,
    ((dialectOptions_spec (envOf (some "TRUE") (some "False"))
      { ssl := some (SslOption.options true (JSValue.bool false)) } (by rfl)).1).mp rfl,
    ((((dialectOptions_spec (envOf (some "TRUE") (some "False"))
      { ssl := some (SslOption.options true (JSValue.bool false)) } (by rfl)).2.2)
      true (JSValue.bool false) rfl).2.1).mp rfl⟩

end ForestDemo
